import Mathlib

/-!
Formal model of the task-planner repository (a React month-view task calendar)
at calendar-day granularity, together with proofs of the behavioural
properties stated in its specification.

Dates are modelled as integers counting days since an arbitrary epoch: every
date handled by the program is normalized to local midnight, so a day index
captures the full information content of the `Date` values the code compares,
offsets, and stores.
-/

namespace TaskPlanner

/-- The four task categories, from `src/types/Task.ts` (`TaskCategory`). -/
inductive TaskCategory
  | toDo
  | inProgress
  | review
  | completed
deriving DecidableEq, Repr

/-- The display string of each category, as written in `src/types/Task.ts`
(the union of string literals). The search filter lowercases and substring-
matches these strings. -/
def categoryName : TaskCategory → String
  | .toDo => "To Do"
  | .inProgress => "In Progress"
  | .review => "Review"
  | .completed => "Completed"

/-- A task entity, from `src/types/Task.ts` (`interface Task`), with the
three `Date` fields at day granularity. -/
structure Task where
  id : String
  title : String
  startDate : Int
  endDate : Int
  category : TaskCategory
  createdAt : Int
deriving DecidableEq, Repr

/-- The three selectable time frames, from `src/types/Task.ts`
(`TaskFilters.timeFrame`, minus the null case which is modelled by
`Option`). -/
inductive TimeFrame
  | week
  | twoWeeks
  | threeWeeks
deriving DecidableEq, Repr

/-- The day count each time frame stands for: the per-case `addDays` /
`setDate` offsets (7, 14, 21) used in `src/utils/dateUtils.ts` and in
`getFilteredTasks` of `src/context/TaskContext.tsx`. -/
def timeFrameDays : TimeFrame → Int
  | .week => 7
  | .twoWeeks => 14
  | .threeWeeks => 21

/-- The filter criteria, from `src/types/Task.ts` (`interface TaskFilters`). -/
structure TaskFilters where
  categories : List TaskCategory
  timeFrame : Option TimeFrame
deriving DecidableEq, Repr

/-- A partial filter update (`Partial<TaskFilters>` in the `SET_FILTERS`
action): each field is either absent (keep the old value) or present. -/
structure PartialFilters where
  categories : Option (List TaskCategory)
  timeFrame : Option (Option TimeFrame)
deriving DecidableEq, Repr

/-- The store state, from `interface TaskState` in
`src/context/TaskContext.tsx`. `creationDates` holds the pair
(startDate, endDate). -/
structure TaskState where
  tasks : List Task
  filters : TaskFilters
  draggedTask : Option Task
  isCreating : Bool
  creationDates : Option (Int × Int)
  searchQuery : String
deriving DecidableEq, Repr

/-- The initial store state (`initialState` in
`src/context/TaskContext.tsx`). -/
def initialState : TaskState :=
  { tasks := []
    filters := { categories := [], timeFrame := none }
    draggedTask := none
    isCreating := false
    creationDates := none
    searchQuery := "" }

/-- The reducer action type (`type TaskAction` in
`src/context/TaskContext.tsx`). -/
inductive TaskAction
  | addTask (task : Task)
  | updateTask (task : Task)
  | deleteTask (taskId : String)
  | setFilters (filters : PartialFilters)
  | setSearchQuery (query : String)
  | setDraggedTask (task : Option Task)
  | startCreation (startDate endDate : Int)
  | cancelCreation
  | loadTasks (tasks : List Task)
  | resetState

/-- Object-spread merge `{ ...state.filters, ...action.filters }` for the
`SET_FILTERS` case: a field present in the partial update wins, an absent
field keeps the old value. -/
def mergeFilters (old : TaskFilters) (p : PartialFilters) : TaskFilters :=
  { categories := p.categories.getD old.categories
    timeFrame := p.timeFrame.getD old.timeFrame }

/-- The store reducer, translated case by case from `taskReducer` in
`src/context/TaskContext.tsx` (lines 37-102). Note that `UPDATE_TASK`
replaces by id with no validation of any kind and `DELETE_TASK` filters by
id; neither case reports anything when the id is absent, and no case
inspects the task's date range. -/
def taskReducer (state : TaskState) (action : TaskAction) : TaskState :=
  match action with
  | .addTask task =>
      { state with
        tasks := state.tasks ++ [task]
        isCreating := false
        creationDates := none }
  | .updateTask task =>
      { state with
        tasks := state.tasks.map fun t => if t.id = task.id then task else t }
  | .deleteTask taskId =>
      { state with tasks := state.tasks.filter fun t => t.id ≠ taskId }
  | .setFilters filters =>
      { state with filters := mergeFilters state.filters filters }
  | .setSearchQuery query =>
      { state with searchQuery := query }
  | .setDraggedTask task =>
      { state with draggedTask := task }
  | .startCreation startDate endDate =>
      { state with
        isCreating := true
        creationDates := some (startDate, endDate) }
  | .cancelCreation =>
      { state with isCreating := false, creationDates := none }
  | .loadTasks tasks =>
      { state with tasks := tasks }
  | .resetState => initialState

/-! Character-level helpers embedding the JavaScript string operations used
by the search filter: `String.prototype.toLowerCase` and
`String.prototype.includes`. -/

/-- Tests whether the first character list begins the second (the leading
position of a JavaScript `includes` scan). -/
def charsStartWith : List Char → List Char → Bool
  | [], _ => true
  | _ :: _, [] => false
  | p :: ps, c :: cs => p == c && charsStartWith ps cs

/-- Substring occurrence test on character lists: `charsContain pat l` is
true iff `pat` occurs contiguously inside `l` (also when `pat` is empty,
matching JavaScript `includes`). -/
def charsContain (pat : List Char) : List Char → Bool
  | [] => charsStartWith pat []
  | c :: cs => charsStartWith pat (c :: cs) || charsContain pat cs

/-- JavaScript `hay.includes(sub)` on strings. -/
def jsIncludes (hay sub : String) : Bool :=
  charsContain sub.data hay.data

/-- JavaScript `s.toLowerCase()`. -/
def jsToLower (s : String) : String :=
  ⟨s.data.map Char.toLower⟩

/-- The search predicate applied inside `getFilteredTasks`
(`src/context/TaskContext.tsx`, lines 118-124): case-insensitive substring
match of the (untrimmed) search text against title and category. -/
def searchMatch (query : String) (t : Task) : Bool :=
  jsIncludes (jsToLower t.title) (jsToLower query)
    || jsIncludes (jsToLower (categoryName t.category)) (jsToLower query)

/-- The derived filtered view `getFilteredTasks` of
`src/context/TaskContext.tsx` (lines 114-159), translated stage by stage.
The code reads the wall clock; here `now` is the current day index and
`dow` its day-of-week number (`now.getDay()`), so
`startOfWeek = now - dow` is the midnight that
`startOfWeek.setDate(now.getDate() - now.getDay()); setHours(0,0,0,0)`
computes. Stage one filters by search text when the trimmed query is
non-empty, stage two by category membership when the selected set is
non-empty, stage three keeps tasks whose start date lies in
`[startOfWeek, startOfWeek + N)` when a time frame is selected. -/
def getFilteredTasks (now dow : Int) (state : TaskState) : List Task :=
  let filtered1 :=
    if state.searchQuery.trim ≠ "" then
      state.tasks.filter fun t => searchMatch state.searchQuery t
    else state.tasks
  let filtered2 :=
    if 0 < state.filters.categories.length then
      filtered1.filter fun t => state.filters.categories.contains t.category
    else filtered1
  match state.filters.timeFrame with
  | none => filtered2
  | some tf =>
      let startOfWeek := now - dow
      let endOfPeriod := startOfWeek + timeFrameDays tf
      filtered2.filter fun t =>
        decide (startOfWeek ≤ t.startDate) && decide (t.startDate < endOfPeriod)

/-- Evaluation of the `query()` operation: in the source,
`getFilteredTasks` is a closure that only reads `state` and dispatches no
action, so evaluating it yields the filtered list and passes the store
state through untouched. -/
def evalQuery (now dow : Int) (state : TaskState) : TaskState × List Task :=
  (state, getFilteredTasks now dow state)

/-- The time-frame overlap test `isTaskInTimeFrame` of
`src/utils/dateUtils.ts` (the revision kept as `src/unnamed/part_001`,
lines 89-123), used by the calendar renderer. The code normalizes `now`,
the cutoff `addDays(now, N)`, and both task dates to midnight before
comparing; at day granularity normalization is the identity, so the three
disjuncts translate directly. -/
def isTaskInTimeFrame (taskStartDate taskEndDate : Int) (timeFrame : TimeFrame)
    (now : Int) : Bool :=
  let cutoff := now + timeFrameDays timeFrame
  (decide (now ≤ taskStartDate) && decide (taskStartDate ≤ cutoff))
    || (decide (now ≤ taskEndDate) && decide (taskEndDate ≤ cutoff))
    || (decide (taskStartDate ≤ now) && decide (cutoff ≤ taskEndDate))

/-- Day enumeration `getDaysBetween` of `src/utils/dateUtils.ts`: the while
loop pushes every day from `startDate` to `endDate` inclusive, yielding the
empty list when `startDate > endDate`. -/
def getDaysBetween (startDate endDate : Int) : List Int :=
  (List.range (endDate + 1 - startDate).toNat).map fun (i : Nat) => startDate + (i : Int)

/-- Which edge a resize gesture grabs (`resizeDirection` in
`src/components/TaskBar.tsx`). -/
inductive ResizeEdge
  | left
  | right
deriving DecidableEq, Repr

/-- One resize update, translated from `handleResizeMove` in
`src/components/TaskBar.tsx` (lines 197-277). `snapStart`/`snapEnd` are the
`resizeStartDates` snapshot taken at resize start, `delta` is the already
rounded whole-day displacement `Math.round(deltaX / dayWidth)`, and
`calendarStart`/`maxDate` are the visible-grid lower bound and the
`calendarStart + 2 months` upper bound the code clamps against. When the
rounded delta is zero the handler returns without dispatching, so the
snapshot dates are returned unchanged. -/
def handleResizeMove (direction : ResizeEdge) (snapStart snapEnd delta
    calendarStart maxDate : Int) : Int × Int :=
  if delta = 0 then (snapStart, snapEnd)
  else
    match direction with
    | .left =>
        let s1 := snapStart + delta
        let s2 := if snapEnd < s1 then snapEnd else s1
        let s3 := if s2 < calendarStart then calendarStart else s2
        (s3, snapEnd)
    | .right =>
        let e1 := snapEnd + delta
        let e2 := if e1 < snapStart then snapStart else e1
        let e3 := if maxDate < e2 then maxDate else e2
        (snapStart, e3)

/-- The move commit of `handleDragEnd` in the calendar component
(`src/unnamed/part_004`, lines 257-365): once a target date is resolved and
validated, the task keeps its inclusive day count
`getDaysBetween(start, end).length` and is repositioned to
`[target, target + (duration - 1)]`. -/
def moveCommit (t : Task) (targetDate : Int) : Task :=
  let taskDuration : Int := (getDaysBetween t.startDate t.endDate).length
  { t with
    startDate := targetDate
    endDate := targetDate + (taskDuration - 1) }

/-! Persistence adapter (`saveTasksToStorage` / `loadTasksFromStorage` in
`src/utils/taskUtils.ts`). `JSON.stringify` renders each `Date` as its
ISO-8601 timestamp string and `new Date(string)` parses it back; at day
granularity an ISO date string is an injective rendering of the day index,
modelled here as a sign flag plus the base-10 digit list of the absolute
day count. -/

/-- Little-endian base-10 digit expansion, fuel-bounded so it reduces by
structural recursion (proved equal to `Nat.digits 10` below). -/
def dayDigitsAux : Nat → Nat → List Nat
  | 0, _ => []
  | _ + 1, 0 => []
  | fuel + 1, n + 1 => (n + 1) % 10 :: dayDigitsAux fuel ((n + 1) / 10)

/-- Little-endian base-10 digit expansion of a day count. -/
def dayDigits (n : Nat) : List Nat :=
  dayDigitsAux n n

/-- Value of a little-endian base-10 digit list. -/
def dayValue : List Nat → Nat
  | [] => 0
  | d :: ds => d + 10 * dayValue ds

/-- An ISO-8601 date string at day granularity: sign and decimal digits of
the day index. -/
structure IsoDateString where
  nonneg : Bool
  digits : List Nat
deriving DecidableEq, Repr

/-- Rendering a day index as its ISO string (the `JSON.stringify` side). -/
def dateToIso (d : Int) : IsoDateString :=
  { nonneg := decide (0 ≤ d), digits := dayDigits d.natAbs }

/-- Parsing an ISO string back to a day index (the `new Date(string)`
side). -/
def isoToDate (s : IsoDateString) : Int :=
  if s.nonneg then ((dayValue s.digits : Nat) : Int)
  else -((dayValue s.digits : Nat) : Int)

/-- A task as it sits in the persisted JSON: every field kept verbatim by
the object spread, the three date fields as ISO strings. -/
structure StoredTask where
  id : String
  title : String
  startDate : IsoDateString
  endDate : IsoDateString
  category : TaskCategory
  createdAt : IsoDateString
deriving DecidableEq, Repr

/-- One serialized task inside the `JSON.stringify(tasks)` payload. -/
def serializeTask (t : Task) : StoredTask :=
  { id := t.id
    title := t.title
    startDate := dateToIso t.startDate
    endDate := dateToIso t.endDate
    category := t.category
    createdAt := dateToIso t.createdAt }

/-- The per-task parse step of `loadTasksFromStorage`:
`{ ...task, startDate: new Date(task.startDate), ... }`. -/
def parseStoredTask (st : StoredTask) : Task :=
  { id := st.id
    title := st.title
    startDate := isoToDate st.startDate
    endDate := isoToDate st.endDate
    category := st.category
    createdAt := isoToDate st.createdAt }

/-- The state of the persisted localStorage entry: missing
(`getItem` returns null), unparseable (the `JSON.parse` call throws and the
catch block runs), or a well-formed serialized task list. -/
inductive StorageState
  | absent
  | corrupt
  | stored (entries : List StoredTask)
deriving DecidableEq, Repr

/-- The save path `saveTasksToStorage(tasks)`: `setItem` overwrites the
entry with the serialized list, whatever was there before. -/
def saveTasksToStorage (tasks : List Task) (_prev : StorageState) : StorageState :=
  .stored (tasks.map serializeTask)

/-- The load path `loadTasksFromStorage()`: a missing entry returns `[]`,
a parse failure is caught and returns `[]`, and a stored list is mapped
through the per-task date parse. -/
def loadTasksFromStorage : StorageState → List Task
  | .absent => []
  | .corrupt => []
  | .stored entries => entries.map parseStoredTask

/-! The per-task gesture controller of `src/components/TaskBar.tsx`: the
interplay of the resize handles' `onMouseDown`, `handleDragStart`,
`handleResizeMove`, and the dnd-kit drag lifecycle, abstracted to the
pointer events one task bar can receive. -/

/-- The interaction phase of one task bar. `resizing` carries the edge and
the `resizeStartDates` snapshot recorded by `handleResizeStart`; `moving`
is the state in which the dnd-kit drag is live (`isDragging` true and the
drag-start effect fired). -/
inductive GesturePhase
  | idle
  | resizing (direction : ResizeEdge) (snapStart snapEnd : Int)
  | moving
deriving DecidableEq, Repr

/-- Where a pointer-down lands: on one of the resize-edge handles (the
overlay divs marked `data-resize-handle`) or on the task body (the
draggable bar carrying the dnd-kit listeners). -/
inductive PointerTarget
  | resizeHandle (direction : ResizeEdge)
  | taskBody
deriving DecidableEq, Repr

/-- A pointer event delivered to the task bar. `pointerMove` carries the
whole-day displacement since the gesture anchor, already rounded the way
`handleResizeMove` rounds `deltaX / dayWidth`. -/
inductive PointerEvent
  | pointerDown (target : PointerTarget)
  | pointerMove (deltaDays : Int)
  | pointerUp
deriving DecidableEq, Repr

/-- What one event makes the task bar emit: nothing, a resize update
dispatched through `onTaskResize`, or a drag preview frame of the dnd-kit
move. -/
inductive GestureOutput
  | silent
  | resizeUpdate (newStartDate newEndDate : Int)
  | dragPreview
deriving DecidableEq, Repr

/-- Whether an event is a pointer movement. -/
def isPointerMove : PointerEvent → Bool
  | .pointerMove _ => true
  | _ => false

/-- Whether a phase is the task-body drag (`MovingTask`) state. -/
def isMovingPhase : GesturePhase → Bool
  | .moving => true
  | _ => false

/-- One step of the task bar's gesture handling, translated from
`src/components/TaskBar.tsx`. `taskStart`/`taskEnd` are the task's current
dates (snapshotted by `handleResizeStart`), `calendarStart`/`maxDate` the
clamp bounds used by `handleResizeMove`.

Case by case: a pointer-down on a resize handle runs the handle's
`onMouseDown` (lines 397-410 and 436-449), which stops propagation before
the dnd-kit listeners can see the event and calls `handleResizeStart`,
entering the resizing phase with a snapshot of the dates. A pointer-down
on the task body runs `handleDragStart` (lines 96-138), which blocks the
drag while `isResizing` is set and otherwise forwards to the dnd-kit
listeners, upon which the drag effect (lines 83-93) enters the moving
phase. A pointer move during a resize runs `handleResizeMove` against the
snapshot (a zero rounded delta returns without dispatching); during a move
it advances the drag preview. Pointer-up ends any gesture
(`handleResizeEnd` / the drag-end branch of the effect). -/
def gestureStep (taskStart taskEnd calendarStart maxDate : Int)
    (phase : GesturePhase) : PointerEvent → GesturePhase × GestureOutput
  | .pointerDown (.resizeHandle direction) =>
      (.resizing direction taskStart taskEnd, .silent)
  | .pointerDown .taskBody =>
      match phase with
      | .resizing d s e => (.resizing d s e, .silent)
      | _ => (.moving, .silent)
  | .pointerMove delta =>
      match phase with
      | .resizing d s e =>
          if delta = 0 then (.resizing d s e, .silent)
          else
            let r := handleResizeMove d s e delta calendarStart maxDate
            (.resizing d s e, .resizeUpdate r.1 r.2)
      | .moving => (.moving, .dragPreview)
      | .idle => (.idle, .silent)
  | .pointerUp => (.idle, .silent)

/-- The list of phases the task bar passes through while consuming a list
of pointer events from a given phase (the starting phase included). -/
def gestureTrace (taskStart taskEnd calendarStart maxDate : Int)
    (phase : GesturePhase) : List PointerEvent → List GesturePhase
  | [] => [phase]
  | e :: es =>
      phase ::
        gestureTrace taskStart taskEnd calendarStart maxDate
          (gestureStep taskStart taskEnd calendarStart maxDate phase e).1 es

/-- The outputs the task bar emits while consuming a list of pointer events
from a given phase. -/
def gestureOutputs (taskStart taskEnd calendarStart maxDate : Int)
    (phase : GesturePhase) : List PointerEvent → List GestureOutput
  | [] => []
  | e :: es =>
      (gestureStep taskStart taskEnd calendarStart maxDate phase e).2 ::
        gestureOutputs taskStart taskEnd calendarStart maxDate
          (gestureStep taskStart taskEnd calendarStart maxDate phase e).1 es

/-! Application-level mutation paths. The store only ever receives task
mutations through the flows below: creation via the selection commit and
`TaskModal` submit, updates via the resize commit (`onTaskResize` →
`handleTaskResize` → `UPDATE_TASK`), the move commit (`handleDragEnd` →
`UPDATE_TASK`), and the edit form (`TaskEditModal` submit → `UPDATE_TASK`,
dates untouched), deletion via `DELETE_TASK`, and persistence via the
`useLocalStorage` save and load effects. These are modelled as operations
on the pair of store tasks and storage entry. -/

/-- The observable state the invariant ranges over: the store's task
collection and the persisted entry. -/
structure AppState where
  tasks : List Task
  storage : StorageState
deriving DecidableEq, Repr

/-- One mutation reaching the task store, each constructor one source flow.

`create`: `handleSelectionEnd` (`src/unnamed/part_004`) orders the selection
anchors with `selectionStart <= selectionEnd ? ... : ...` before opening
`TaskModal`, whose submit dispatches `ADD_TASK` with exactly those dates.

`editTask`: `TaskEditModal` submit replaces title and category only.

`resizeCommit`: one `handleResizeMove` dispatch; the fields are the
snapshot dates, the rounded day delta, and the clamp bounds.

`moveTask`: `handleDragEnd` with the resolved target date and the visible
calendar range it validates against; a target outside the range aborts
without mutating.

`deleteTask`: `DELETE_TASK` by id.

`save` and `load`: the `useLocalStorage` effects; load dispatches
`LOAD_TASKS` only when the loaded list is non-empty. -/
inductive AppOp
  | create (id title : String) (sel1 sel2 : Int) (category : TaskCategory)
      (createdAt : Int)
  | editTask (taskId : String) (title : String) (category : TaskCategory)
  | resizeCommit (taskId : String) (direction : ResizeEdge)
      (snapStart snapEnd delta calendarStart maxDate : Int)
  | moveTask (taskId : String) (target calendarStart calendarEnd : Int)
  | deleteTask (taskId : String)
  | save
  | load
deriving DecidableEq, Repr

/-- Applying one mutation flow to the application state, with each case
translated from its source flow. -/
def applyOp (s : AppState) : AppOp → AppState
  | .create id title sel1 sel2 category createdAt =>
      let startDate := if sel1 ≤ sel2 then sel1 else sel2
      let endDate := if sel1 ≤ sel2 then sel2 else sel1
      { s with
        tasks := s.tasks ++
          [{ id := id, title := title, startDate := startDate,
             endDate := endDate, category := category,
             createdAt := createdAt }] }
  | .editTask taskId title category =>
      { s with
        tasks := s.tasks.map fun t =>
          if t.id = taskId then { t with title := title, category := category }
          else t }
  | .resizeCommit taskId direction snapStart snapEnd delta calendarStart maxDate =>
      let r := handleResizeMove direction snapStart snapEnd delta calendarStart maxDate
      { s with
        tasks := s.tasks.map fun t =>
          if t.id = taskId then { t with startDate := r.1, endDate := r.2 }
          else t }
  | .moveTask taskId target calendarStart calendarEnd =>
      if target < calendarStart ∨ calendarEnd < target then s
      else
        { s with
          tasks := s.tasks.map fun t =>
            if t.id = taskId then moveCommit t target else t }
  | .deleteTask taskId =>
      { s with tasks := s.tasks.filter fun t => t.id ≠ taskId }
  | .save =>
      { s with storage := saveTasksToStorage s.tasks s.storage }
  | .load =>
      let loaded := loadTasksFromStorage s.storage
      if 0 < loaded.length then { s with tasks := loaded } else s

/-- The interaction preconditions under which a mutation flow can fire in
the running application. Creation, edits, moves, deletes, and persistence
need none. A resize commit presupposes that the grabbed handle was
rendered: the snapshot was a stored task (so its dates are ordered), the
left handle only renders on the task's first day, which lies inside the
visible grid (`calendarStart <= snapStart`), and the right handle only on
its last day, which lies inside the visible grid and hence at most two
months past its start (`snapEnd <= maxDate`). -/
def opOk : AppOp → Bool
  | .resizeCommit _ direction snapStart snapEnd _ calendarStart maxDate =>
      decide (snapStart ≤ snapEnd) &&
        (match direction with
         | .left => decide (calendarStart ≤ snapStart)
         | .right => decide (snapEnd ≤ maxDate))
  | _ => true

/-- Running a sequence of mutation flows. -/
def applyOps (s : AppState) (ops : List AppOp) : AppState :=
  ops.foldl applyOp s

/-- A task whose date range is well formed. -/
def validTask (t : Task) : Bool :=
  decide (t.startDate ≤ t.endDate)

/-- Validity of the persisted entry: a stored list parses back to
well-formed tasks; a missing or corrupt entry loads as `[]` and is
harmless. -/
def storageValid : StorageState → Bool
  | .stored entries => entries.all fun st => validTask (parseStoredTask st)
  | _ => true

/-- The global invariant: every stored task has `startDate <= endDate` and
the persisted entry only yields such tasks. -/
def appStateValid (s : AppState) : Bool :=
  s.tasks.all validTask && storageValid s.storage

/-! Concrete fixtures used by counterexamples and witnesses. -/

/-- A task whose date range is inverted (start after end). -/
def invalidRangeTask : Task :=
  { id := "t1", title := "Demo", startDate := 5, endDate := 3,
    category := .toDo, createdAt := 0 }

/-- A store holding one well-formed task with id "t1". -/
def rangeState : TaskState :=
  { initialState with
    tasks := [{ id := "t1", title := "Demo", startDate := 1, endDate := 2,
                category := .toDo, createdAt := 0 }] }

/-- A store holding one task with id "kept". -/
def missState : TaskState :=
  { initialState with
    tasks := [{ id := "kept", title := "Kept", startDate := 1, endDate := 2,
                category := .review, createdAt := 0 }] }

/-- An update whose id matches nothing in `missState`. -/
def missTask : Task :=
  { id := "ghost", title := "Ghost", startDate := 1, endDate := 2,
    category := .toDo, createdAt := 0 }

/-- The failure outcomes the specification's store API distinguishes. -/
inductive StoreFailure
  | notFound
  | invalidRange
deriving DecidableEq, Repr

/-- Modelled from the spec (refinement reference, not from the source):
`update(task)` per the spec's Task Store contract replaces by id and
surfaces a NotFound condition to the caller when the id is absent, and an
InvalidRange error when the update would violate `startDate <= endDate`.
The source reducer is compared against this. -/
def specUpdate (tasks : List Task) (t : Task) :
    Except StoreFailure (List Task) :=
  if tasks.all fun x => x.id ≠ t.id then .error .notFound
  else if t.endDate < t.startDate then .error .invalidRange
  else .ok (tasks.map fun x => if x.id = t.id then t else x)

/-- The initial application state: empty store, nothing persisted. -/
def demoInit : AppState :=
  { tasks := [], storage := .absent }

/-- A run through every mutation flow: create by selection (anchors given
in reversed order), resize the right edge, move, persist, reload, edit. -/
def demoOps : List AppOp :=
  [ .create "t1" "Write report" 12 10 .toDo 0,
    .resizeCommit "t1" .right 10 12 5 0 61,
    .moveTask "t1" 20 0 41,
    .save,
    .load,
    .editTask "t1" "Write report v2" .inProgress ]

/-- The task `demoOps` leaves in the store. -/
def demoTask : Task :=
  { id := "t1", title := "Write report v2", startDate := 20, endDate := 27,
    category := .inProgress, createdAt := 0 }

/-- A three-day task used to demonstrate the move commit. -/
def moveDemoTask : Task :=
  { id := "m", title := "Move me", startDate := 10, endDate := 12,
    category := .toDo, createdAt := 0 }

/-! Helper lemmas shared across the development. -/

/-- The day enumeration has the inclusive day count as its length. -/
theorem length_getDaysBetween (startDate endDate : Int) :
    (getDaysBetween startDate endDate).length = (endDate + 1 - startDate).toNat := by
  unfold getDaysBetween
  rw [List.length_map, List.length_range]

/-- The fuel-bounded digit expansion agrees with `Nat.digits 10` whenever
the fuel covers the argument. -/
theorem dayDigitsAux_eq (fuel n : Nat) (h : n ≤ fuel) :
    dayDigitsAux fuel n = Nat.digits 10 n := by
  induction fuel generalizing n with
  | zero =>
      have hn : n = 0 := Nat.le_zero.mp h
      subst hn
      simp [dayDigitsAux, Nat.digits_zero]
  | succ f ih =>
      cases n with
      | zero => simp [dayDigitsAux, Nat.digits_zero]
      | succ m =>
          rw [dayDigitsAux, ih ((m + 1) / 10) (by omega),
            Nat.digits_def' (by norm_num) (Nat.succ_pos m)]

/-- The digit-list value function agrees with `Nat.ofDigits 10`. -/
theorem dayValue_eq_ofDigits (l : List Nat) :
    dayValue l = Nat.ofDigits 10 l := by
  induction l with
  | nil => rfl
  | cons d ds ih => rw [dayValue, ih, Nat.ofDigits_cons]

/-- Digit expansion of a day count evaluates back to the count. -/
theorem dayValue_dayDigits (n : Nat) : dayValue (dayDigits n) = n := by
  rw [dayDigits, dayDigitsAux_eq n n le_rfl, dayValue_eq_ofDigits,
    Nat.ofDigits_digits]

/-- ISO rendering of a day index parses back to the same day. -/
theorem isoToDate_dateToIso (d : Int) : isoToDate (dateToIso d) = d := by
  simp only [isoToDate, dateToIso, dayValue_dayDigits]
  split
  · next hd =>
      simp only [decide_eq_true_eq] at hd
      omega
  · next hd =>
      simp only [decide_eq_true_eq] at hd
      omega

/-- Serializing a task and parsing it back is the identity. -/
theorem parseStoredTask_serializeTask (t : Task) :
    parseStoredTask (serializeTask t) = t := by
  cases t
  simp [parseStoredTask, serializeTask, isoToDate_dateToIso]

/-- Replacing by an id that no task carries maps the list to itself. -/
theorem map_update_absent_id (tasks : List Task) (t : Task)
    (h : ∀ x ∈ tasks, x.id ≠ t.id) :
    (tasks.map fun x => if x.id = t.id then t else x) = tasks := by
  induction tasks with
  | nil => rfl
  | cons a l ih =>
      simp only [List.map_cons, List.cons.injEq]
      exact ⟨by simp [h a (by simp)], ih fun x hx => h x (by simp [hx])⟩

/-- Filtering out an id that no task carries keeps the list intact. -/
theorem filter_delete_absent_id (tasks : List Task) (taskId : String)
    (h : ∀ x ∈ tasks, x.id ≠ taskId) :
    (tasks.filter fun x => x.id ≠ taskId) = tasks := by
  induction tasks with
  | nil => rfl
  | cons a l ih =>
      simp only [List.filter_cons]
      rw [if_pos (by simpa using h a (by simp))]
      exact congrArg _ (ih fun x hx => h x (by simp [hx]))

/-- Core clamp property of one resize update: under the conditions in which
the grabbed handle is rendered, the returned range is ordered. -/
theorem handleResizeMove_ordered (direction : ResizeEdge)
    (snapStart snapEnd delta calendarStart maxDate : Int)
    (hrange : snapStart ≤ snapEnd)
    (hleft : direction = ResizeEdge.left → calendarStart ≤ snapStart)
    (hright : direction = ResizeEdge.right → snapEnd ≤ maxDate) :
    (handleResizeMove direction snapStart snapEnd delta calendarStart maxDate).1 ≤
      (handleResizeMove direction snapStart snapEnd delta calendarStart maxDate).2 := by
  cases direction with
  | left =>
      have hc := hleft rfl
      by_cases h0 : delta = 0
      · simpa [handleResizeMove, h0] using hrange
      · simp only [handleResizeMove, h0]
        simp only [if_false]
        split_ifs <;> simp <;> omega
  | right =>
      have hc := hright rfl
      by_cases h0 : delta = 0
      · simpa [handleResizeMove, h0] using hrange
      · simp only [handleResizeMove, h0]
        simp only [if_false]
        split_ifs <;> simp <;> omega

/-- A committed move of a well-formed task yields a well-formed task. -/
theorem moveCommit_valid (t : Task) (target : Int)
    (h : validTask t = true) : validTask (moveCommit t target) = true := by
  simp only [validTask, decide_eq_true_eq] at h ⊢
  simp only [moveCommit, length_getDaysBetween]
  omega

/-- Mapping a validity-preserving per-task function over a valid collection
keeps it valid. -/
theorem all_valid_map (tasks : List Task) (f : Task → Task)
    (hf : ∀ t ∈ tasks, validTask t = true → validTask (f t) = true)
    (hall : tasks.all validTask = true) :
    (tasks.map f).all validTask = true := by
  rw [List.all_eq_true] at hall ⊢
  intro t ht
  rw [List.mem_map] at ht
  obtain ⟨a, ha, rfl⟩ := ht
  exact hf a ha (hall a ha)

/-- One mutation flow preserves the global invariant. -/
theorem applyOp_preserves_valid (s : AppState) (op : AppOp)
    (hs : appStateValid s = true) (hop : opOk op = true) :
    appStateValid (applyOp s op) = true := by
  rw [appStateValid, Bool.and_eq_true] at hs
  obtain ⟨htasks, hstore⟩ := hs
  cases op with
  | create id title sel1 sel2 category createdAt =>
      rw [appStateValid, Bool.and_eq_true]
      refine ⟨?_, hstore⟩
      simp only [applyOp, List.all_append, Bool.and_eq_true]
      refine ⟨htasks, ?_⟩
      simp only [List.all_cons, List.all_nil, Bool.and_true, validTask,
        decide_eq_true_eq]
      split_ifs with h <;> omega
  | editTask taskId title category =>
      rw [appStateValid, Bool.and_eq_true]
      refine ⟨?_, hstore⟩
      refine all_valid_map _ _ ?_ htasks
      intro t _ ht
      simp only [validTask, decide_eq_true_eq] at ht ⊢
      split_ifs <;> simpa using ht
  | resizeCommit taskId direction snapStart snapEnd delta calendarStart maxDate =>
      rw [appStateValid, Bool.and_eq_true]
      refine ⟨?_, hstore⟩
      simp only [opOk, Bool.and_eq_true, decide_eq_true_eq] at hop
      obtain ⟨hrange, hdir⟩ := hop
      have hord :
          (handleResizeMove direction snapStart snapEnd delta calendarStart
            maxDate).1 ≤
          (handleResizeMove direction snapStart snapEnd delta calendarStart
            maxDate).2 := by
        refine handleResizeMove_ordered direction snapStart snapEnd delta
          calendarStart maxDate hrange ?_ ?_
        · intro hd
          subst hd
          simpa using hdir
        · intro hd
          subst hd
          simpa using hdir
      refine all_valid_map _ _ ?_ htasks
      intro t _ ht
      simp only [validTask, decide_eq_true_eq] at ht ⊢
      split_ifs <;> simp_all
  | moveTask taskId target calendarStart calendarEnd =>
      simp only [applyOp]
      split_ifs with h
      · rw [appStateValid, Bool.and_eq_true]
        exact ⟨htasks, hstore⟩
      · rw [appStateValid, Bool.and_eq_true]
        refine ⟨?_, hstore⟩
        refine all_valid_map _ _ ?_ htasks
        intro t _ ht
        split_ifs
        · exact moveCommit_valid t target ht
        · exact ht
  | deleteTask taskId =>
      rw [appStateValid, Bool.and_eq_true]
      refine ⟨?_, hstore⟩
      rw [List.all_eq_true] at htasks ⊢
      intro t ht
      exact htasks t (List.mem_of_mem_filter ht)
  | save =>
      rw [appStateValid, Bool.and_eq_true]
      refine ⟨htasks, ?_⟩
      simp only [applyOp, saveTasksToStorage, storageValid, List.all_eq_true]
      intro st hst
      rw [List.mem_map] at hst
      obtain ⟨a, ha, rfl⟩ := hst
      rw [parseStoredTask_serializeTask]
      rw [List.all_eq_true] at htasks
      exact htasks a ha
  | load =>
      simp only [applyOp]
      split_ifs with h
      · rw [appStateValid, Bool.and_eq_true]
        refine ⟨?_, hstore⟩
        cases hsto : s.storage with
        | absent => simp [loadTasksFromStorage, hsto]
        | corrupt => simp [loadTasksFromStorage, hsto]
        | stored entries =>
            rw [storageValid.eq_def, hsto] at hstore
            simpa [loadTasksFromStorage, hsto] using hstore
      · rw [appStateValid, Bool.and_eq_true]
        exact ⟨htasks, hstore⟩

/-- Any sequence of mutation flows preserves the global invariant. -/
theorem applyOps_preserves_valid (s : AppState) (ops : List AppOp)
    (hs : appStateValid s = true) (hops : ops.all opOk = true) :
    appStateValid (applyOps s ops) = true := by
  induction ops generalizing s with
  | nil => exact hs
  | cons op rest ih =>
      rw [List.all_cons, Bool.and_eq_true] at hops
      exact ih (applyOp s op) (applyOp_preserves_valid s op hs hops.1) hops.2

/-- One pointer-move step while resizing keeps the phase and snapshot and
emits either nothing or the clamped resize update computed from the
snapshot. -/
theorem gestureStep_resizing_move (ts te cs md s0 e0 δ : Int)
    (d : ResizeEdge) :
    gestureStep ts te cs md (.resizing d s0 e0) (.pointerMove δ) =
      (.resizing d s0 e0,
        if δ = 0 then .silent
        else
          .resizeUpdate (handleResizeMove d s0 e0 δ cs md).1
            (handleResizeMove d s0 e0 δ cs md).2) := by
  by_cases h0 : δ = 0 <;> simp [gestureStep, h0]

/-- While consuming only pointer moves, a resizing task bar stays in the
same resizing phase and emits only silent ticks or resize updates computed
from its snapshot. -/
theorem resizing_trace_stable (ts te cs md s0 e0 : Int) (d : ResizeEdge)
    (evs : List PointerEvent) (h : evs.all isPointerMove = true) :
    (∀ g ∈ gestureTrace ts te cs md (.resizing d s0 e0) evs,
        g = GesturePhase.resizing d s0 e0) ∧
    (∀ o ∈ gestureOutputs ts te cs md (.resizing d s0 e0) evs,
        o = GestureOutput.silent ∨
          ∃ δ : Int, o = GestureOutput.resizeUpdate
            (handleResizeMove d s0 e0 δ cs md).1
            (handleResizeMove d s0 e0 δ cs md).2) := by
  induction evs with
  | nil =>
      constructor
      · intro g hg
        simpa [gestureTrace] using hg
      · intro o ho
        simp [gestureOutputs] at ho
  | cons ev rest ih =>
      rw [List.all_cons, Bool.and_eq_true] at h
      obtain ⟨hev, hrest⟩ := h
      cases ev with
      | pointerDown t => simp [isPointerMove] at hev
      | pointerUp => simp [isPointerMove] at hev
      | pointerMove δ =>
          obtain ⟨ih1, ih2⟩ := ih hrest
          constructor
          · intro g hg
            simp only [gestureTrace, gestureStep_resizing_move,
              List.mem_cons] at hg
            rcases hg with rfl | hg
            · rfl
            · exact ih1 g hg
          · intro o ho
            simp only [gestureOutputs, gestureStep_resizing_move,
              List.mem_cons] at ho
            rcases ho with rfl | ho
            · by_cases h0 : δ = 0
              · left
                simp [h0]
              · right
                exact ⟨δ, by simp [h0]⟩
            · exact ih2 o ho

/-! Claim theorems. -/

/-- C1: for every task in the Task Store's collection, at every state
observable by the store — after any sequence of add (selection commit),
update via resize, move, or edit, delete, and persistence save/load
operations, each fired under the interaction preconditions in which its
source flow can run — `startDate <= endDate` holds. -/
theorem taskStore_date_invariant (s : AppState) (ops : List AppOp)
    (hs : appStateValid s = true) (hops : ops.all opOk = true) :
    ∀ t ∈ (applyOps s ops).tasks, t.startDate ≤ t.endDate := by
  intro t ht
  have h := applyOps_preserves_valid s ops hs hops
  rw [appStateValid, Bool.and_eq_true] at h
  have h1 := h.1
  rw [List.all_eq_true] at h1
  have := h1 t ht
  simpa [validTask] using this

/-- Witness for C1: a concrete run through creation, resize, move, save,
load, and edit ends with a store whose task has an ordered date range. -/
theorem taskStore_date_invariant_witness :
    demoTask.startDate ≤ demoTask.endDate :=
  taskStore_date_invariant demoInit demoOps (by decide) (by decide)
    demoTask (by decide)

/-- C3: a committed task move with a resolved target date preserves the
inclusive day duration: the new start is the target, the new end is
`target + (duration - 1)` days, and the end-start difference is exactly
preserved. -/
theorem moveCommit_preserves_duration (t : Task) (target : Int)
    (h : t.startDate ≤ t.endDate) :
    (moveCommit t target).startDate = target ∧
    (moveCommit t target).endDate =
      target +
        (((getDaysBetween t.startDate t.endDate).length : Int) - 1) ∧
    (moveCommit t target).endDate - (moveCommit t target).startDate =
      t.endDate - t.startDate := by
  refine ⟨rfl, rfl, ?_⟩
  simp only [moveCommit, length_getDaysBetween]
  omega

/-- Witness for C3: moving a three-day task to day 15 yields days 15-17. -/
theorem moveCommit_preserves_duration_witness :
    moveDemoTask.startDate ≤ moveDemoTask.endDate ∧
    ((moveCommit moveDemoTask 15).startDate = 15 ∧
      (moveCommit moveDemoTask 15).endDate =
        15 +
          (((getDaysBetween moveDemoTask.startDate
              moveDemoTask.endDate).length : Int) - 1) ∧
      (moveCommit moveDemoTask 15).endDate -
          (moveCommit moveDemoTask 15).startDate =
        moveDemoTask.endDate - moveDemoTask.startDate) :=
  ⟨by decide, moveCommit_preserves_duration moveDemoTask 15 (by decide)⟩

/-- C4: a resize update never lets the dragged edge cross the fixed
opposite edge, whatever the pointer displacement: the resulting range is
ordered, its inclusive day count is at least one, a start-edge resize
leaves the end fixed, and an end-edge resize leaves the start fixed. The
hypotheses state that the grabbed handle was rendered: the task's stored
range was ordered, the left handle sits on the task's first day inside the
visible grid, the right handle on its last day within the clamp maximum. -/
theorem resize_clamp_never_crosses (direction : ResizeEdge)
    (snapStart snapEnd delta calendarStart maxDate : Int)
    (hrange : snapStart ≤ snapEnd)
    (hleft : direction = ResizeEdge.left → calendarStart ≤ snapStart)
    (hright : direction = ResizeEdge.right → snapEnd ≤ maxDate) :
    (handleResizeMove direction snapStart snapEnd delta calendarStart
        maxDate).1 ≤
      (handleResizeMove direction snapStart snapEnd delta calendarStart
        maxDate).2 ∧
    1 ≤ (getDaysBetween
        (handleResizeMove direction snapStart snapEnd delta calendarStart
          maxDate).1
        (handleResizeMove direction snapStart snapEnd delta calendarStart
          maxDate).2).length ∧
    (direction = ResizeEdge.left →
      (handleResizeMove direction snapStart snapEnd delta calendarStart
        maxDate).2 = snapEnd) ∧
    (direction = ResizeEdge.right →
      (handleResizeMove direction snapStart snapEnd delta calendarStart
        maxDate).1 = snapStart) := by
  have hord := handleResizeMove_ordered direction snapStart snapEnd delta
    calendarStart maxDate hrange hleft hright
  refine ⟨hord, ?_, ?_, ?_⟩
  · rw [length_getDaysBetween]
    omega
  · intro hd
    subst hd
    by_cases h0 : delta = 0 <;> simp [handleResizeMove, h0]
  · intro hd
    subst hd
    by_cases h0 : delta = 0 <;> simp [handleResizeMove, h0]

/-- Witness for C4: dragging the start edge of a task on days 5-9 a
hundred days to the right clamps to a one-day task ending on day 9. -/
theorem resize_clamp_never_crosses_witness :
    ((5 : Int) ≤ 9) ∧
    ((handleResizeMove ResizeEdge.left 5 9 100 0 61).1 ≤
        (handleResizeMove ResizeEdge.left 5 9 100 0 61).2 ∧
      1 ≤ (getDaysBetween (handleResizeMove ResizeEdge.left 5 9 100 0 61).1
          (handleResizeMove ResizeEdge.left 5 9 100 0 61).2).length ∧
      (ResizeEdge.left = ResizeEdge.left →
        (handleResizeMove ResizeEdge.left 5 9 100 0 61).2 = 9) ∧
      (ResizeEdge.left = ResizeEdge.right →
        (handleResizeMove ResizeEdge.left 5 9 100 0 61).1 = 5)) :=
  ⟨by decide,
    resize_clamp_never_crosses ResizeEdge.left 5 9 100 0 61 (by decide)
      (by decide) (by decide)⟩

/-- C5 counterexample: the reducer stores an update whose task has
`startDate > endDate` — no InvalidRange rejection happens and the
violating task replaces the prior one, so the claim that a violating
update is rejected and never stored is false on the code. -/
theorem updateTask_invalid_range_stored :
    invalidRangeTask.endDate < invalidRangeTask.startDate ∧
    (taskReducer rangeState (.updateTask invalidRangeTask)).tasks =
      [invalidRangeTask] := by decide

/-- C5 amended: the store applies every update whose id is present without
any range validation — the update replaces the task by id, and a task with
`startDate > endDate` is stored rather than rejected. -/
theorem updateTask_commits_unvalidated (s : TaskState) (t : Task)
    (hmem : ∃ x ∈ s.tasks, x.id = t.id) :
    t ∈ (taskReducer s (.updateTask t)).tasks ∧
    (taskReducer s (.updateTask t)).tasks =
      s.tasks.map fun x => if x.id = t.id then t else x := by
  refine ⟨?_, rfl⟩
  obtain ⟨x, hx, hid⟩ := hmem
  simp only [taskReducer, List.mem_map]
  exact ⟨x, hx, by simp [hid]⟩

/-- Witness for the amended C5: the inverted-range update lands in the
store. -/
theorem updateTask_commits_unvalidated_witness :
    (∃ x ∈ rangeState.tasks, x.id = invalidRangeTask.id) ∧
    invalidRangeTask ∈
      (taskReducer rangeState (.updateTask invalidRangeTask)).tasks :=
  ⟨by decide,
    (updateTask_commits_unvalidated rangeState invalidRangeTask
      (by decide)).1⟩

/-- C8 counterexample: an update whose id is absent leaves the whole store
state unchanged, with no observable signal of any kind — while the
specification's store contract demands a NotFound failure — so the claim
that the store reports the miss to the caller is false on the code. The
same holds for a delete with an absent id. -/
theorem updateTask_missing_id_silent :
    specUpdate missState.tasks missTask = .error .notFound ∧
    taskReducer missState (.updateTask missTask) = missState ∧
    taskReducer missState (.deleteTask "ghost") = missState :=
  ⟨rfl, by decide, by decide⟩

/-- C8 amended: an update or delete whose task id is absent leaves the
store state entirely unchanged; the miss is silently ignored and no
NotFound condition is reported. -/
theorem update_delete_missing_noop (s : TaskState) (t : Task)
    (taskId : String)
    (hu : ∀ x ∈ s.tasks, x.id ≠ t.id)
    (hd : ∀ x ∈ s.tasks, x.id ≠ taskId) :
    taskReducer s (.updateTask t) = s ∧
    taskReducer s (.deleteTask taskId) = s := by
  constructor
  · show { s with tasks := _ } = s
    rw [map_update_absent_id s.tasks t hu]
  · show { s with tasks := _ } = s
    rw [filter_delete_absent_id s.tasks taskId hd]

/-- Witness for the amended C8. -/
theorem update_delete_missing_noop_witness :
    (∀ x ∈ missState.tasks, x.id ≠ missTask.id) ∧
    (∀ x ∈ missState.tasks, x.id ≠ "ghost") ∧
    (taskReducer missState (.updateTask missTask) = missState ∧
      taskReducer missState (.deleteTask "ghost") = missState) :=
  ⟨by decide, by decide,
    update_delete_missing_noop missState missTask "ghost" (by decide)
      (by decide)⟩

/-- C9: saving a task list and loading it back yields the same list (date
fields round-trip losslessly at day resolution), and loading a missing or
corrupt entry yields the empty list. -/
theorem storage_roundtrip (tasks : List Task) (prev : StorageState) :
    loadTasksFromStorage (saveTasksToStorage tasks prev) = tasks ∧
    loadTasksFromStorage .absent = [] ∧
    loadTasksFromStorage .corrupt = [] := by
  refine ⟨?_, rfl, rfl⟩
  simp only [saveTasksToStorage, loadTasksFromStorage, List.map_map]
  have h : parseStoredTask ∘ serializeTask = id :=
    funext parseStoredTask_serializeTask
  rw [h, List.map_id]

/-- C10: changing the filter criteria or the search text never modifies
the stored task collection, and evaluating the filtered query leaves the
entire store state unchanged while returning the filtered list. -/
theorem filters_and_query_leave_tasks (s : TaskState) (p : PartialFilters)
    (q : String) (now dow : Int) :
    (taskReducer s (.setFilters p)).tasks = s.tasks ∧
    (taskReducer s (.setSearchQuery q)).tasks = s.tasks ∧
    (evalQuery now dow s).1 = s ∧
    (evalQuery now dow s).2 = getFilteredTasks now dow s :=
  ⟨rfl, rfl, rfl, rfl⟩

/-- C2: a pointer-down on a task's resize-edge handle followed by any
sequence of pointer movements never enters the task-body drag
(`MovingTask`) state, and every non-silent emission of the interaction is
a resize update computed by the clamped resize logic from the snapshot
taken at the pointer-down — resize takes priority over the drag. -/
theorem resize_handle_excludes_move (ts te cs md : Int) (d : ResizeEdge)
    (evs : List PointerEvent) (hmoves : evs.all isPointerMove = true) :
    (∀ g ∈ gestureTrace ts te cs md
        (gestureStep ts te cs md .idle
          (.pointerDown (.resizeHandle d))).1 evs,
      isMovingPhase g = false) ∧
    (∀ o ∈ gestureOutputs ts te cs md
        (gestureStep ts te cs md .idle
          (.pointerDown (.resizeHandle d))).1 evs,
      o = GestureOutput.silent ∨
        ∃ δ : Int, o = GestureOutput.resizeUpdate
          (handleResizeMove d ts te δ cs md).1
          (handleResizeMove d ts te δ cs md).2) := by
  have hstep : (gestureStep ts te cs md .idle
      (.pointerDown (.resizeHandle d))).1 = GesturePhase.resizing d ts te :=
    rfl
  rw [hstep]
  obtain ⟨h1, h2⟩ := resizing_trace_stable ts te cs md ts te d evs hmoves
  refine ⟨fun g hg => ?_, h2⟩
  rw [h1 g hg]
  rfl

/-- Witness for C2: a pointer-down on the left edge handle of a task on
days 3-8 followed by two pointer moves never shows the moving phase. -/
theorem resize_handle_excludes_move_witness :
    ([PointerEvent.pointerMove 2, PointerEvent.pointerMove 0].all
        isPointerMove = true) ∧
    isMovingPhase (GesturePhase.resizing ResizeEdge.left 3 8) = false :=
  ⟨by decide,
    (resize_handle_excludes_move 3 8 0 61 ResizeEdge.left
        [.pointerMove 2, .pointerMove 0] (by decide)).1
      (GesturePhase.resizing ResizeEdge.left 3 8) (by decide)⟩

/-- C6: a task passes the `isTaskInTimeFrame` filter for a selected frame
of N days (7, 14, or 21) exactly when its inclusive `[startDate, endDate]`
interval overlaps the inclusive window `[now, now + N]` — in particular a
task starting before `now` and ending after the cutoff still matches. -/
theorem isTaskInTimeFrame_overlap (s e now : Int) (tf : TimeFrame)
    (h : s ≤ e) :
    isTaskInTimeFrame s e tf now = true ↔
      ∃ d : Int, s ≤ d ∧ d ≤ e ∧ now ≤ d ∧ d ≤ now + timeFrameDays tf := by
  have hN : 0 < timeFrameDays tf := by cases tf <;> norm_num [timeFrameDays]
  simp only [isTaskInTimeFrame, Bool.or_eq_true, Bool.and_eq_true,
    decide_eq_true_eq]
  constructor
  · rintro ((⟨h1, h2⟩ | ⟨h1, h2⟩) | ⟨h1, h2⟩)
    · exact ⟨s, le_refl s, h, h1, h2⟩
    · exact ⟨e, h, le_refl e, h1, h2⟩
    · exact ⟨now, h1, by omega, le_refl now, by omega⟩
  · rintro ⟨d, h1, h2, h3, h4⟩
    omega

/-- Witness for C6: a task spanning days -3 to 40 overlaps the one-week
window starting at day 0 and passes the filter. -/
theorem isTaskInTimeFrame_overlap_witness :
    ((-3 : Int) ≤ 40) ∧
    (isTaskInTimeFrame (-3) 40 TimeFrame.week 0 = true ↔
      ∃ d : Int, (-3 : Int) ≤ d ∧ d ≤ 40 ∧ 0 ≤ d ∧
        d ≤ 0 + timeFrameDays TimeFrame.week) :=
  ⟨by decide, isTaskInTimeFrame_overlap (-3) 40 0 TimeFrame.week (by decide)⟩

/-- C7: the filtered query returns exactly the tasks satisfying the
conjunction of the three conditionally applied filters — text search when
the trimmed query is non-blank, category membership when the selected set
is non-empty, time-frame test when a frame is selected — and is a sublist
of the collection, preserving insertion order with no sort. -/
theorem getFilteredTasks_pipeline (now dow : Int) (s : TaskState) :
    getFilteredTasks now dow s =
      s.tasks.filter (fun t =>
        (decide (s.searchQuery.trim = "") || searchMatch s.searchQuery t) &&
          ((decide (s.filters.categories.length = 0) ||
              s.filters.categories.contains t.category) &&
            (match s.filters.timeFrame with
             | none => true
             | some tf =>
                 decide (now - dow ≤ t.startDate) &&
                   decide (t.startDate < now - dow + timeFrameDays tf)))) ∧
    List.Sublist (getFilteredTasks now dow s) s.tasks := by
  have hmain : getFilteredTasks now dow s =
      s.tasks.filter (fun t =>
        (decide (s.searchQuery.trim = "") || searchMatch s.searchQuery t) &&
          ((decide (s.filters.categories.length = 0) ||
              s.filters.categories.contains t.category) &&
            (match s.filters.timeFrame with
             | none => true
             | some tf =>
                 decide (now - dow ≤ t.startDate) &&
                   decide (t.startDate < now - dow + timeFrameDays tf)))) := by
    unfold getFilteredTasks
    by_cases h1 : s.searchQuery.trim = "" <;>
      by_cases h2 : s.filters.categories.length = 0 <;>
        cases htf : s.filters.timeFrame <;>
          simp [h1, h2, htf, Nat.pos_iff_ne_zero] <;>
          exact List.filter_congr fun x hx => by ac_rfl
  refine ⟨hmain, ?_⟩
  rw [hmain]
  exact List.filter_sublist _

end TaskPlanner
